import Mathlib

/-!
Shallow embedding of the data-processing and risk-scoring pipeline of the
Inflation-Poverty-Analysis dashboard (`src/app.py`), together with proofs
about the pipeline's documented properties.

Modelling conventions:
* A pandas cell is a `PVal`: the missing marker `nan` (which is how pandas
  represents both `NaN` and null), the two IEEE infinities `inf`/`ninf`,
  or a finite value `num q` carried as an exact rational.  Arithmetic on
  `PVal` follows the IEEE-754 special-value rules used by pandas/numpy
  (`nan` propagates, `x/0` is a signed infinity for `x ≠ 0` and `nan`
  for `0/0`, comparisons against `nan` are false); finite arithmetic is
  exact, which is the idealisation used for "within floating-point
  tolerance" statements.
* A table is a `List` of row structures; a column is extracted with `map`.
* pandas reductions (`sum`, `mean`) skip missing values, which is modelled
  by filtering `nan` out before folding.
-/

/-- Pandas cell value: missing (`nan`), positive/negative infinity, or a
finite rational. -/
inductive PVal where
  | nan : PVal
  | inf : PVal
  | ninf : PVal
  | num : ℚ → PVal
deriving DecidableEq

/-- IEEE addition on pandas values. -/
def padd : PVal → PVal → PVal
  | PVal.nan, _ => PVal.nan
  | _, PVal.nan => PVal.nan
  | PVal.inf, PVal.ninf => PVal.nan
  | PVal.ninf, PVal.inf => PVal.nan
  | PVal.inf, _ => PVal.inf
  | _, PVal.inf => PVal.inf
  | PVal.ninf, _ => PVal.ninf
  | _, PVal.ninf => PVal.ninf
  | PVal.num a, PVal.num b => PVal.num (a + b)

/-- IEEE negation on pandas values. -/
def pneg : PVal → PVal
  | PVal.nan => PVal.nan
  | PVal.inf => PVal.ninf
  | PVal.ninf => PVal.inf
  | PVal.num a => PVal.num (-a)

/-- IEEE subtraction on pandas values. -/
def psub (a b : PVal) : PVal := padd a (pneg b)

/-- IEEE multiplication on pandas values (`0 * ∞ = nan`). -/
def pmul : PVal → PVal → PVal
  | PVal.nan, _ => PVal.nan
  | _, PVal.nan => PVal.nan
  | PVal.inf, PVal.inf => PVal.inf
  | PVal.inf, PVal.ninf => PVal.ninf
  | PVal.ninf, PVal.inf => PVal.ninf
  | PVal.ninf, PVal.ninf => PVal.inf
  | PVal.inf, PVal.num b => if 0 < b then PVal.inf else if b < 0 then PVal.ninf else PVal.nan
  | PVal.num a, PVal.inf => if 0 < a then PVal.inf else if a < 0 then PVal.ninf else PVal.nan
  | PVal.ninf, PVal.num b => if 0 < b then PVal.ninf else if b < 0 then PVal.inf else PVal.nan
  | PVal.num a, PVal.ninf => if 0 < a then PVal.ninf else if a < 0 then PVal.inf else PVal.nan
  | PVal.num a, PVal.num b => PVal.num (a * b)

/-- IEEE division on pandas values: division of a nonzero finite value by
zero is a signed infinity (numpy zeros are `+0`), `0/0 = nan`. -/
def pdiv : PVal → PVal → PVal
  | PVal.nan, _ => PVal.nan
  | _, PVal.nan => PVal.nan
  | PVal.inf, PVal.inf => PVal.nan
  | PVal.inf, PVal.ninf => PVal.nan
  | PVal.ninf, PVal.inf => PVal.nan
  | PVal.ninf, PVal.ninf => PVal.nan
  | PVal.inf, PVal.num b => if b < 0 then PVal.ninf else PVal.inf
  | PVal.ninf, PVal.num b => if b < 0 then PVal.inf else PVal.ninf
  | PVal.num _, PVal.inf => PVal.num 0
  | PVal.num _, PVal.ninf => PVal.num 0
  | PVal.num a, PVal.num b =>
    if b = 0 then (if 0 < a then PVal.inf else if a < 0 then PVal.ninf else PVal.nan)
    else PVal.num (a / b)

/-- IEEE absolute value on pandas values. -/
def pabs : PVal → PVal
  | PVal.nan => PVal.nan
  | PVal.inf => PVal.inf
  | PVal.ninf => PVal.inf
  | PVal.num a => PVal.num |a|

/-- IEEE strict greater-than: any comparison involving `nan` is false. -/
def pgt : PVal → PVal → Bool
  | PVal.nan, _ => false
  | _, PVal.nan => false
  | PVal.inf, PVal.inf => false
  | PVal.inf, _ => true
  | _, PVal.inf => false
  | PVal.ninf, _ => false
  | PVal.num _, PVal.ninf => true
  | PVal.num a, PVal.num b => decide (b < a)

/-- IEEE strict less-than, reduced to `pgt` with the operands swapped. -/
def plt (a b : PVal) : Bool := pgt b a

/-- Pandas `notna`: true for every value except the missing marker. -/
def notna : PVal → Bool
  | PVal.nan => false
  | _ => true

/-- A cell that is either missing or finite (no infinities) — the shape of
every raw or `to_numeric`-parsed column. -/
def finOrNan (v : PVal) : Prop := v = PVal.nan ∨ ∃ q, v = PVal.num q

/-- Pandas `Series.sum()`: missing values are skipped and the empty sum
is `0`. -/
def psum (l : List PVal) : PVal := (l.filter notna).foldl padd (PVal.num 0)

/-- Pandas `Series.mean()`: the sum of the non-missing values divided by
their count; the mean of no non-missing values is missing. -/
def pmean (l : List PVal) : PVal :=
  let l2 := l.filter notna
  if l2.isEmpty then PVal.nan
  else pdiv (l2.foldl padd (PVal.num 0)) (PVal.num l2.length)

/-- Finite entries of a column, in order. -/
def finParts (l : List PVal) : List ℚ :=
  l.filterMap (fun v => match v with | PVal.num q => some q | _ => none)

/-- ASCII space/tab/newline/carriage-return test, the whitespace stripped
by `str.strip` on this data. -/
def isSpaceChar (c : Char) : Bool :=
  decide (c = ' ') || decide (c = Char.ofNat 9) || decide (c = Char.ofNat 10) ||
    decide (c = Char.ofNat 13)

/-- Python `str.strip` on a character list: drop whitespace from both ends. -/
def trimChars (l : List Char) : List Char :=
  ((l.dropWhile isSpaceChar).reverse.dropWhile isSpaceChar).reverse

/-- Lower-casing of an ASCII letter, as `str.lower` acts on this data. -/
def asciiLower (c : Char) : Char :=
  if 'A' ≤ c ∧ c ≤ 'Z' then Char.ofNat (c.toNat + 32) else c

/-- Join-key normalisation `str.strip().str.lower()` applied to country
names before every cross-table merge. -/
def normName (s : String) : String := ⟨(trimChars s.data).map asciiLower⟩

/-- Numeric value of a digit string (most significant digit first). -/
def digitsVal (l : List Char) : ℕ := l.foldl (fun a c => a * 10 + (c.toNat - 48)) 0

/-- Parse of an unsigned decimal literal `digits [. digits]` (at least one
digit overall), the grammar accepted by `pd.to_numeric` on this data. -/
def parseUnsigned (l : List Char) : Option ℚ :=
  match l.dropWhile Char.isDigit with
  | [] =>
    if (l.takeWhile Char.isDigit).isEmpty then none
    else some ((digitsVal (l.takeWhile Char.isDigit) : ℚ))
  | c :: frac =>
    if c = '.' ∧ frac.all Char.isDigit = true ∧
        ((l.takeWhile Char.isDigit).isEmpty = false ∨ frac.isEmpty = false) then
      some ((digitsVal (l.takeWhile Char.isDigit) : ℚ) +
        (digitsVal frac : ℚ) / ((10 : ℚ) ^ frac.length))
    else none

/-- Parse of an optionally signed decimal literal. -/
def parseSigned (l : List Char) : Option ℚ :=
  match l with
  | [] => none
  | c :: rest =>
    if c = '-' then (parseUnsigned rest).map (fun q => -q)
    else if c = '+' then parseUnsigned rest
    else parseUnsigned (c :: rest)

/-- Pandas `pd.to_numeric(…, errors='coerce')` on a textual cell:
surrounding whitespace is ignored, a well-formed signed decimal literal
becomes its exact value, anything else becomes the missing marker. -/
def to_numeric (s : String) : PVal :=
  match parseSigned (trimChars s.data) with
  | some q => PVal.num q
  | none => PVal.nan

/-- Removal of the `%` and `,` decoration characters (every occurrence),
as the chained `str.replace('%','').str.replace(',','')` does. -/
def stripDecoration (s : String) : String :=
  ⟨s.data.filter (fun c => decide (c ≠ '%' ∧ c ≠ ','))⟩

/-- Scalar cleaner `clean_percent_col` of `app.py`: strip `%`/`,` then
coerce to a number, unparseable input becoming missing. -/
def clean_percent_col (s : String) : PVal := to_numeric (stripDecoration s)

/-- One leading sign character removed, for stating the literal grammar. -/
def dropSign (l : List Char) : List Char :=
  match l with
  | [] => []
  | c :: rest => if c = '-' ∨ c = '+' then rest else c :: rest

/-- Independent statement of the decimal-literal grammar: after removing
one optional sign, at most one dot, every character a digit or the dot,
and at least one digit. -/
def numShape (l : List Char) : Bool :=
  decide ((dropSign l).count '.' ≤ 1) &&
    (dropSign l).all (fun c => c.isDigit || decide (c = '.')) &&
    (dropSign l).any Char.isDigit

/-- Raw row of the Region table: `Population` arrives numeric (or missing),
the three percentage columns arrive as decorated text. -/
structure RegionRow where
  region : String
  population : PVal
  urbanPopPerc : String
  yearlyChange : String
  worldShare : String

/-- Enriched Region row produced by `process_region_data`. -/
structure RegionOut where
  region : String
  population : PVal
  urbanPopPerc : PVal
  yearlyChange : PVal
  worldShare : PVal
  urbanPop : PVal
  ruralPop : PVal

/-- Region enricher, per row: clean the percentage columns, then
`Urban_Pop = Population * Urban-Pop-Perc / 100` and
`Rural_Pop = Population - Urban_Pop`. -/
def process_region_row (r : RegionRow) : RegionOut :=
  let perc := clean_percent_col r.urbanPopPerc
  let urban := pdiv (pmul r.population perc) (PVal.num 100)
  { region := r.region
    population := r.population
    urbanPopPerc := perc
    yearlyChange := clean_percent_col r.yearlyChange
    worldShare := clean_percent_col r.worldShare
    urbanPop := urban
    ruralPop := psub r.population urban }

/-- Region enricher `process_region_data` of `app.py`. -/
def process_region_data (rows : List RegionRow) : List RegionOut :=
  rows.map process_region_row

/-- Raw row of the country-wise table.  `netChangePerc` and `yearlyChange`
are only meaningful when the corresponding column exists (see
`CountryTable`). -/
structure CountryRow where
  country : String
  population : PVal
  fertRate : PVal
  medianAge : PVal
  migrantsNet : PVal
  density : PVal
  yearlyChange : PVal
  netChangePerc : PVal
deriving DecidableEq

/-- Country table together with which of the two optional columns exist,
since `process_country_data` branches on `'Net_Change_perc' not in
country.columns` and uses `country.get('Yearly-Change', 0)`. -/
structure CountryTable where
  rows : List CountryRow
  hasNetChangePerc : Bool
  hasYearlyChange : Bool

/-- Three-way demographic classification values. -/
inductive DemStatus where
  | growing : DemStatus
  | aging : DemStatus
  | stable : DemStatus
deriving DecidableEq

/-- Classifier `classify_aging` of `app.py`: `Growing` when
`Fert-Rate > 2.1` and `Median-Age < 30`, else `Aging` when
`Fert-Rate < 1.8` and `Median-Age > 40`, else `Stable`.  The Python
literals `2.1` and `1.8` are the rationals `21/10` and `9/5`. -/
def classify_aging (fert medAge : PVal) : DemStatus :=
  if pgt fert (PVal.num (21/10)) && plt medAge (PVal.num 30) then DemStatus.growing
  else if plt fert (PVal.num (9/5)) && pgt medAge (PVal.num 40) then DemStatus.aging
  else DemStatus.stable

/-- Enriched country row produced by `process_country_data`. -/
structure CountryOut where
  country : String
  population : PVal
  fertRate : PVal
  medianAge : PVal
  migrantsNet : PVal
  density : PVal
  netChangePerc : PVal
  migrantsPer100k : PVal
  demographicStatus : DemStatus
deriving DecidableEq

/-- Country enricher, per row.  When the `Net_Change_perc` column is
absent it is `country.get('Yearly-Change', 0) * 100`: the per-row series
times 100 when the `Yearly-Change` column exists, otherwise the scalar
`0 * 100`.  `Migrants_per_100k = Migrants-net / Population * 100000`. -/
def process_country_row (t : CountryTable) (r : CountryRow) : CountryOut :=
  { country := r.country
    population := r.population
    fertRate := r.fertRate
    medianAge := r.medianAge
    migrantsNet := r.migrantsNet
    density := r.density
    netChangePerc :=
      if t.hasNetChangePerc then r.netChangePerc
      else if t.hasYearlyChange then pmul r.yearlyChange (PVal.num 100)
      else PVal.num 0
    migrantsPer100k := pmul (pdiv r.migrantsNet r.population) (PVal.num 100000)
    demographicStatus := classify_aging r.fertRate r.medianAge }

/-- Country enricher `process_country_data` of `app.py`. -/
def process_country_data (t : CountryTable) : List CountryOut :=
  t.rows.map (process_country_row t)

/-- Raw row of the Undernourishment table. -/
structure UndRow where
  country : String
  population : PVal
  undernourished : PVal
deriving DecidableEq

/-- Whole-table scalar `total_undernourished`. -/
def totalUndernourished (rows : List UndRow) : PVal :=
  psum (rows.map (fun r => r.undernourished))

/-- Whole-table scalar `total_pop`. -/
def totalPopulation (rows : List UndRow) : PVal :=
  psum (rows.map (fun r => r.population))

/-- Enriched Undernourishment row. -/
structure UndOut where
  country : String
  population : PVal
  undernourished : PVal
  undernourishedPer1000 : PVal
  undernourishedMillion : PVal
  globalBurdenShare : PVal
  populationShare : PVal
  burdenVsPopDiff : PVal
deriving DecidableEq

/-- Undernourishment enricher `process_undernourishment_data` of `app.py`:
per-capita metrics plus the two share columns against the whole-table
totals; returns the enriched rows and the two scalar totals. -/
def process_undernourishment_data (rows : List UndRow) : List UndOut × PVal × PVal :=
  let tu := totalUndernourished rows
  let tp := totalPopulation rows
  (rows.map (fun r =>
    let gbs := pmul (pdiv r.undernourished tu) (PVal.num 100)
    let ps := pmul (pdiv r.population tp) (PVal.num 100)
    { country := r.country
      population := r.population
      undernourished := r.undernourished
      undernourishedPer1000 := pmul (pdiv r.undernourished r.population) (PVal.num 1000)
      undernourishedMillion := pdiv r.undernourished (PVal.num 1000000)
      globalBurdenShare := gbs
      populationShare := ps
      burdenVsPopDiff := psub gbs ps }), tu, tp)

/-- Raw row of the Food Price table.  `year-recorded`/`month-recorded` are
integral in the raw data (their later `astype(int)` is the identity here);
`price-paid` may be missing. -/
structure FoodRow where
  countryName : String
  commPurchased : String
  yearRecorded : ℤ
  monthRecorded : ℤ
  pricePaid : PVal
deriving DecidableEq

/-- Food price filter `process_food_data` of `app.py`: keep the rows whose
`price-paid` is present and strictly positive. -/
def process_food_data (rows : List FoodRow) : List FoodRow :=
  rows.filter (fun r => notna r.pricePaid && pgt r.pricePaid (PVal.num 0))

/-- Rows of a (normalised-name) country group of the food table. -/
def rowsFor (rows : List FoodRow) (g : String) : List FoodRow :=
  rows.filter (fun r => decide (normName r.countryName = g))

/-- Distinct normalised country names with food data, the group keys of
`food_clean.groupby('country-name')`. -/
def foodCountries (rows : List FoodRow) : List String :=
  (rows.map (fun r => normName r.countryName)).dedup

/-- Distinct years of one country group, ascending — the inner key order
produced by `groupby(['country-name', 'year-recorded'])`. -/
def sortedYears (rows : List FoodRow) (g : String) : List ℤ :=
  List.insertionSort (fun a b => a ≤ b) (((rowsFor rows g).map (fun r => r.yearRecorded)).dedup)

/-- Mean `price-paid` of one country and year, the aggregated value of
`groupby(['country-name', 'year-recorded'])['price-paid'].mean()`. -/
def meanPriceFor (rows : List FoodRow) (g : String) (y : ℤ) : PVal :=
  pmean (((rowsFor rows g).filter (fun r => decide (r.yearRecorded = y))).map (fun r => r.pricePaid))

/-- Yearly mean-price series of one country, in year order. -/
def priceSeries (rows : List FoodRow) (g : String) : List PVal :=
  (sortedYears rows g).map (meanPriceFor rows g)

/-- Helper for `pctChange`: successive ratios against the previous value. -/
def pctChangeAux : PVal → List PVal → List PVal
  | _, [] => []
  | prev, x :: xs => psub (pdiv x prev) (PVal.num 1) :: pctChangeAux x xs

/-- Pandas `Series.pct_change()`: first element missing, then
`current/previous - 1`. -/
def pctChange (l : List PVal) : List PVal :=
  match l with
  | [] => []
  | x :: xs => PVal.nan :: pctChangeAux x xs

/-- Scalar `avg_food_inflation` of one country: mean of the per-year
percentage changes (each scaled by 100), skipping the missing first
entry — missing when fewer than two years of data exist. -/
def avgFoodInflation (rows : List FoodRow) (g : String) : PVal :=
  pmean ((pctChange (priceSeries rows g)).map (fun v => pmul v (PVal.num 100)))

/-- Row of `food_trends`: one country with its `avg_food_inflation`. -/
structure TrendRow where
  countryName : String
  avgFoodInflation : PVal
deriving DecidableEq

/-- Table `food_trends` of `app.py`: one row per distinct country with
food data. -/
def food_trends (rows : List FoodRow) : List TrendRow :=
  (foodCountries rows).map (fun g => { countryName := g, avgFoodInflation := avgFoodInflation rows g })

/-- Composite score
`Fert-Rate * 0.3 + (Density / 1000) * 0.2 + abs(avg_food_inflation) * 0.5`. -/
def poverty_risk_score (fert density infl : PVal) : PVal :=
  padd
    (padd (pmul fert (PVal.num (3/10)))
      (pmul (pdiv density (PVal.num 1000)) (PVal.num (2/10))))
    (pmul (pabs infl) (PVal.num (5/10)))

/-- Row of the Cross-Table Joiner's output `merged_df`. -/
structure MergedRow where
  country : String
  fertRate : PVal
  density : PVal
  avgFoodInflation : PVal
  povertyRiskScore : PVal
deriving DecidableEq

/-- One merged row from a country row and its matching trend row. -/
def mkMergedRow (c : CountryOut) (t : TrendRow) : MergedRow :=
  { country := normName c.country
    fertRate := c.fertRate
    density := c.density
    avgFoodInflation := t.avgFoodInflation
    povertyRiskScore := poverty_risk_score c.fertRate c.density t.avgFoodInflation }

/-- Cross-Table Joiner of `app.py`: inner `pd.merge` of the enriched
country table (key lower-cased and trimmed) with `food_trends`, in left
order, followed by the composite-score column. -/
def cross_table_join (countryOut : List CountryOut) (foodRows : List FoodRow) : List MergedRow :=
  countryOut.flatMap (fun c =>
    ((food_trends foodRows).filter
      (fun t => decide (t.countryName = normName c.country))).map (mkMergedRow c))

/-- First-vs-last delta of an ordered series, the aggregation
`lambda x: x.iloc[-1] - x.iloc[0] if len(x) > 1 else 0`. -/
def firstLastDelta (l : List PVal) : PVal :=
  if 1 < l.length then psub (l.getLastD PVal.nan) (l.headD PVal.nan) else PVal.num 0

/-- Yearly mean-price series of one commodity, in year order — the group
that `price_change` aggregates over. -/
def commodityYearlyMeans (rows : List FoodRow) (c : String) : List PVal :=
  (List.insertionSort (fun a b => a ≤ b)
      (((rows.filter (fun r => decide (r.commPurchased = c))).map (fun r => r.yearRecorded)).dedup)).map
    (fun y => pmean (((rows.filter (fun r => decide (r.commPurchased = c))).filter
      (fun r => decide (r.yearRecorded = y))).map (fun r => r.pricePaid)))

/-- Per-commodity `price_change` of `app.py`: first-vs-last delta of the
commodity's yearly mean prices. -/
def price_change (rows : List FoodRow) (c : String) : PVal :=
  firstLastDelta (commodityYearlyMeans rows c)

/-- Country row with high fertility and low median age, for witnesses. -/
def witGrowingRow : CountryRow :=
  { country := "Niger", population := PVal.num 24000000, fertRate := PVal.num 7,
    medianAge := PVal.num 15, migrantsNet := PVal.num 0, density := PVal.num 19,
    yearlyChange := PVal.num 1, netChangePerc := PVal.nan }

/-- Country table used by witnesses (both optional columns present). -/
def witCountryTable : CountryTable :=
  { rows := [witGrowingRow], hasNetChangePerc := true, hasYearlyChange := true }

/-- Food table with one kept and two rejected rows, for witnesses. -/
def witFoodRows : List FoodRow :=
  [{ countryName := "Kenya", commPurchased := "Maize", yearRecorded := 2019,
     monthRecorded := 4, pricePaid := PVal.num 30 },
   { countryName := "Kenya", commPurchased := "Maize", yearRecorded := 2019,
     monthRecorded := 5, pricePaid := PVal.nan },
   { countryName := "Kenya", commPurchased := "Maize", yearRecorded := 2019,
     monthRecorded := 6, pricePaid := PVal.num (-2) }]

/-- The row of `witFoodRows` that survives the filter. -/
def witKeptFoodRow : FoodRow :=
  { countryName := "Kenya", commPurchased := "Maize", yearRecorded := 2019,
    monthRecorded := 4, pricePaid := PVal.num 30 }

/-- Country row with zero population and positive net migration. -/
def witZeroPopRow : CountryRow :=
  { country := "Vatican", population := PVal.num 0, fertRate := PVal.nan,
    medianAge := PVal.nan, migrantsNet := PVal.num 5, density := PVal.num 1,
    yearlyChange := PVal.nan, netChangePerc := PVal.nan }


/-- Enriched country row used by the join witnesses. -/
def witJoinCountryRow : CountryOut :=
  { country := "Kenya", population := PVal.num 50000000, fertRate := PVal.num 4,
    medianAge := PVal.num 20, migrantsNet := PVal.num 0, density := PVal.num 90,
    netChangePerc := PVal.num 2, migrantsPer100k := PVal.num 0,
    demographicStatus := DemStatus.growing }

/-- One-row enriched country table for the join witnesses. -/
def witJoinCountry : List CountryOut := [witJoinCountryRow]

/-- Two-year food table for one country, for the join witnesses. -/
def witJoinFood : List FoodRow :=
  [{ countryName := "Kenya", commPurchased := "Maize", yearRecorded := 2019,
     monthRecorded := 4, pricePaid := PVal.num 30 },
   { countryName := "Kenya", commPurchased := "Maize", yearRecorded := 2020,
     monthRecorded := 4, pricePaid := PVal.num 33 }]

/-- The trend row that `food_trends` produces from `witJoinFood`. -/
def witJoinTrend : TrendRow :=
  { countryName := normName "Kenya",
    avgFoodInflation := avgFoodInflation witJoinFood (normName "Kenya") }

/-- Country row whose `Yearly-Change` value is missing, for C7. -/
def cx7NanRow : CountryRow :=
  { country := "Atlantis", population := PVal.num 1000, fertRate := PVal.num 2,
    medianAge := PVal.num 35, migrantsNet := PVal.num 0, density := PVal.num 10,
    yearlyChange := PVal.nan, netChangePerc := PVal.nan }

/-- Country row whose `Yearly-Change` value is `2`, for C7. -/
def cx7NumRow : CountryRow :=
  { country := "Utopia", population := PVal.num 1000, fertRate := PVal.num 2,
    medianAge := PVal.num 35, migrantsNet := PVal.num 0, density := PVal.num 10,
    yearlyChange := PVal.num 2, netChangePerc := PVal.nan }

/-- Country table without a `Net_Change_perc` column but with a
`Yearly-Change` column, for C7. -/
def cx7Table : CountryTable :=
  { rows := [cx7NanRow, cx7NumRow], hasNetChangePerc := false, hasYearlyChange := true }

/-- Food table with one commodity and two years of prices (2 then 4),
for C8. -/
def cx8Food : List FoodRow :=
  [{ countryName := "Kenya", commPurchased := "Rice", yearRecorded := 2000,
     monthRecorded := 1, pricePaid := PVal.num 2 },
   { countryName := "Kenya", commPurchased := "Rice", yearRecorded := 2001,
     monthRecorded := 1, pricePaid := PVal.num 4 }]


/-- Region row with a missing `Population` but a parseable
`Urban-Pop-Perc`, for C3. -/
def cx3Row : RegionRow :=
  { region := "Atlantis", population := PVal.nan, urbanPopPerc := "50",
    yearlyChange := "1", worldShare := "1" }

/-- Region row with both fields present, for the C3 witness. -/
def wit3Row : RegionRow :=
  { region := "Africa", population := PVal.num 1200, urbanPopPerc := "40%",
    yearlyChange := "2.5%", worldShare := "16%" }


/-- Enriched country table with two rows that normalise to the same
country name, for C9. -/
def cx9Country : List CountryOut :=
  [{ country := "Pakistan", population := PVal.num 1, fertRate := PVal.num 3,
     medianAge := PVal.num 22, migrantsNet := PVal.num 0, density := PVal.num 280,
     netChangePerc := PVal.num 2, migrantsPer100k := PVal.num 0,
     demographicStatus := DemStatus.growing },
   { country := "PAKISTAN", population := PVal.num 1, fertRate := PVal.num 3,
     medianAge := PVal.num 22, migrantsNet := PVal.num 0, density := PVal.num 280,
     netChangePerc := PVal.num 2, migrantsPer100k := PVal.num 0,
     demographicStatus := DemStatus.growing }]

/-- Food table with a single country, for C9. -/
def cx9Food : List FoodRow :=
  [{ countryName := "Pakistan", commPurchased := "Wheat", yearRecorded := 2000,
     monthRecorded := 1, pricePaid := PVal.num 1 }]


/-- Undernourishment row whose values are present but zero, for the C4
counterexample. -/
def cx4Row : UndRow :=
  { country := "Ruritania", population := PVal.num 0, undernourished := PVal.num 0 }

/-- One-row undernourishment table with zero totals, for C4. -/
def cx4Rows : List UndRow := [cx4Row]

/-- Undernourishment table with two data rows and one missing row, for
the C4 witness. -/
def wit4Rows : List UndRow :=
  [{ country := "Alphaland", population := PVal.num 100, undernourished := PVal.num 10 },
   { country := "Betaland", population := PVal.num 300, undernourished := PVal.num 30 },
   { country := "Gammaland", population := PVal.nan, undernourished := PVal.nan }]

-- ===== theorem section =====

/-- Adding to a missing value on the left is missing. -/
@[simp] lemma padd_nan_left (v : PVal) : padd PVal.nan v = PVal.nan := by cases v <;> rfl

/-- Adding to a missing value on the right is missing. -/
@[simp] lemma padd_nan_right (v : PVal) : padd v PVal.nan = PVal.nan := by cases v <;> rfl

/-- Finite addition is exact. -/
@[simp] lemma padd_num_num (a b : ℚ) : padd (PVal.num a) (PVal.num b) = PVal.num (a + b) := rfl

/-- Finite negation is exact. -/
@[simp] lemma pneg_num (a : ℚ) : pneg (PVal.num a) = PVal.num (-a) := rfl

/-- Finite subtraction is exact. -/
@[simp] lemma psub_num_num (a b : ℚ) : psub (PVal.num a) (PVal.num b) = PVal.num (a - b) := by
  rw [sub_eq_add_neg]; rfl

/-- Subtracting from a missing value is missing. -/
@[simp] lemma psub_nan_left (v : PVal) : psub PVal.nan v = PVal.nan := by cases v <;> rfl

/-- Subtracting a missing value is missing. -/
@[simp] lemma psub_nan_right (v : PVal) : psub v PVal.nan = PVal.nan := by cases v <;> rfl

/-- Multiplying a missing value on the left is missing. -/
@[simp] lemma pmul_nan_left (v : PVal) : pmul PVal.nan v = PVal.nan := by cases v <;> rfl

/-- Multiplying a missing value on the right is missing. -/
@[simp] lemma pmul_nan_right (v : PVal) : pmul v PVal.nan = PVal.nan := by cases v <;> rfl

/-- Finite multiplication is exact. -/
@[simp] lemma pmul_num_num (a b : ℚ) : pmul (PVal.num a) (PVal.num b) = PVal.num (a * b) := rfl

/-- Positive infinity times a finite value follows the sign of the value. -/
lemma pmul_inf_num (b : ℚ) :
    pmul PVal.inf (PVal.num b) = if 0 < b then PVal.inf else if b < 0 then PVal.ninf else PVal.nan := rfl

/-- Negative infinity times a finite value follows the opposite sign. -/
lemma pmul_ninf_num (b : ℚ) :
    pmul PVal.ninf (PVal.num b) = if 0 < b then PVal.ninf else if b < 0 then PVal.inf else PVal.nan := rfl

/-- Dividing a missing value is missing. -/
@[simp] lemma pdiv_nan_left (v : PVal) : pdiv PVal.nan v = PVal.nan := by cases v <;> rfl

/-- Dividing by a missing value is missing. -/
@[simp] lemma pdiv_nan_right (v : PVal) : pdiv v PVal.nan = PVal.nan := by cases v <;> rfl

/-- Finite division, including the division-by-zero cases. -/
lemma pdiv_num_num (a b : ℚ) :
    pdiv (PVal.num a) (PVal.num b) =
      if b = 0 then (if 0 < a then PVal.inf else if a < 0 then PVal.ninf else PVal.nan)
      else PVal.num (a / b) := rfl

/-- Finite division by a nonzero value is exact. -/
@[simp] lemma pdiv_num_num_ne (a b : ℚ) (hb : b ≠ 0) :
    pdiv (PVal.num a) (PVal.num b) = PVal.num (a / b) := by
  rw [pdiv_num_num, if_neg hb]

/-- Absolute value of a finite value is exact. -/
@[simp] lemma pabs_num (a : ℚ) : pabs (PVal.num a) = PVal.num |a| := rfl

/-- Absolute value of a missing value is missing. -/
@[simp] lemma pabs_nan : pabs PVal.nan = PVal.nan := rfl

/-- Finite comparison decides the rational order. -/
@[simp] lemma pgt_num_num (a b : ℚ) : pgt (PVal.num a) (PVal.num b) = decide (b < a) := rfl

/-- Comparison with a missing left operand is false. -/
@[simp] lemma pgt_nan_left (v : PVal) : pgt PVal.nan v = false := by cases v <;> rfl

/-- Comparison with a missing right operand is false. -/
@[simp] lemma pgt_nan_right (v : PVal) : pgt v PVal.nan = false := by cases v <;> rfl

/-- The missing marker is not `notna`. -/
@[simp] lemma notna_nan : notna PVal.nan = false := rfl

/-- Finite values are `notna`. -/
@[simp] lemma notna_num (a : ℚ) : notna (PVal.num a) = true := rfl

/-- Positive infinity is `notna`. -/
@[simp] lemma notna_inf : notna PVal.inf = true := rfl

/-- Negative infinity is `notna`. -/
@[simp] lemma notna_ninf : notna PVal.ninf = true := rfl

/-- The Growing guard and the Aging fertility guard are mutually
exclusive: no value is both above 2.1 and below 1.8. -/
lemma growing_aging_exclusive (f : PVal) :
    ¬(pgt f (PVal.num (21/10)) = true ∧ pgt (PVal.num (9/5)) f = true) := by
  rcases f with _ | _ | _ | q
  · simp [pgt]
  · simp [pgt]
  · simp [pgt]
  · simp only [pgt_num_num, decide_eq_true_eq]
    rintro ⟨h1, h2⟩
    have : (9:ℚ)/5 < 21/10 := by norm_num
    linarith

/-- Characterisation of `classify_aging` by its two guards. -/
lemma classify_aging_spec (f a : PVal) :
    (classify_aging f a = DemStatus.growing ↔
      (pgt f (PVal.num (21/10)) = true ∧ plt a (PVal.num 30) = true))
  ∧ (classify_aging f a = DemStatus.aging ↔
      (plt f (PVal.num (9/5)) = true ∧ pgt a (PVal.num 40) = true))
  ∧ (classify_aging f a = DemStatus.stable ↔
      ¬((pgt f (PVal.num (21/10)) = true ∧ plt a (PVal.num 30) = true)
        ∨ (plt f (PVal.num (9/5)) = true ∧ pgt a (PVal.num 40) = true))) := by
  have hexcl := growing_aging_exclusive f
  unfold classify_aging plt
  rcases hG1 : pgt f (PVal.num (21/10)) with _ | _ <;>
    rcases hG2 : pgt (PVal.num 30) a with _ | _ <;>
      rcases hA1 : pgt (PVal.num (9/5)) f with _ | _ <;>
        rcases hA2 : pgt a (PVal.num 40) with _ | _ <;>
          simp_all

/-- C1. Demographic classification of the enriched country table: a row is
`Growing` exactly when `Fert-Rate > 2.1` and `Median-Age < 30`, `Aging`
exactly when `Fert-Rate < 1.8` and `Median-Age > 40`, and `Stable` in
every other case; the comparisons are IEEE-strict, so a row with
`Fert-Rate = 2.1` is not `Growing` and a row with a missing `Fert-Rate`
or `Median-Age` is `Stable`. -/
theorem demographic_status_spec (t : CountryTable) (o : CountryOut)
    (ho : o ∈ process_country_data t) :
    (o.demographicStatus = DemStatus.growing ↔
      (pgt o.fertRate (PVal.num (21/10)) = true ∧ plt o.medianAge (PVal.num 30) = true))
  ∧ (o.demographicStatus = DemStatus.aging ↔
      (plt o.fertRate (PVal.num (9/5)) = true ∧ pgt o.medianAge (PVal.num 40) = true))
  ∧ (o.demographicStatus = DemStatus.stable ↔
      ¬((pgt o.fertRate (PVal.num (21/10)) = true ∧ plt o.medianAge (PVal.num 30) = true)
        ∨ (plt o.fertRate (PVal.num (9/5)) = true ∧ pgt o.medianAge (PVal.num 40) = true)))
  ∧ (o.fertRate = PVal.num (21/10) → o.demographicStatus ≠ DemStatus.growing)
  ∧ ((o.fertRate = PVal.nan ∨ o.medianAge = PVal.nan) → o.demographicStatus = DemStatus.stable) := by
  unfold process_country_data at ho
  obtain ⟨r, hr, rfl⟩ := List.mem_map.mp ho
  have hfert : (process_country_row t r).fertRate = r.fertRate := rfl
  have hage : (process_country_row t r).medianAge = r.medianAge := rfl
  have hst : (process_country_row t r).demographicStatus = classify_aging r.fertRate r.medianAge := rfl
  rw [hfert, hage, hst]
  obtain ⟨hG, hA, hS⟩ := classify_aging_spec r.fertRate r.medianAge
  refine ⟨hG, hA, hS, ?_, ?_⟩
  · intro hval hcontra
    have h1 := (hG.mp hcontra).1
    rw [hval] at h1
    simp only [pgt_num_num, decide_eq_true_eq] at h1
    exact absurd h1 (lt_irrefl _)
  · intro hmiss
    apply hS.mpr
    rintro (⟨h1, h2⟩ | ⟨h1, h2⟩) <;> rcases hmiss with hm | hm
    · rw [hm] at h1; simp at h1
    · rw [hm] at h2; simp [plt] at h2
    · rw [hm] at h1; simp [plt] at h1
    · rw [hm] at h2; simp at h2

/-- Witness for C1: a concrete fertile young-population row classifies as
`Growing`, through the theorem. -/
theorem demographic_status_spec_witness :
    ∃ o ∈ process_country_data witCountryTable, o.demographicStatus = DemStatus.growing := by
  have hmem : process_country_row witCountryTable witGrowingRow ∈
      process_country_data witCountryTable :=
    List.mem_map.mpr ⟨witGrowingRow, by simp [witCountryTable], rfl⟩
  refine ⟨_, hmem, ?_⟩
  apply (demographic_status_spec witCountryTable _ hmem).1.mpr
  constructor
  · show pgt witGrowingRow.fertRate (PVal.num (21/10)) = true
    show pgt (PVal.num 7) (PVal.num (21/10)) = true
    simp only [pgt_num_num, decide_eq_true_eq]
    norm_num
  · show plt witGrowingRow.medianAge (PVal.num 30) = true
    show pgt (PVal.num 30) (PVal.num 15) = true
    simp only [pgt_num_num, decide_eq_true_eq]
    norm_num

/-- C5. Every row surviving the food price filter has a present,
strictly positive `price-paid`. -/
theorem food_filter_positive_price (rows : List FoodRow) (r : FoodRow)
    (h : r ∈ process_food_data rows) :
    r.pricePaid ≠ PVal.nan ∧ pgt r.pricePaid (PVal.num 0) = true := by
  unfold process_food_data at h
  obtain ⟨-, hcond⟩ := List.mem_filter.mp h
  rw [Bool.and_eq_true] at hcond
  refine ⟨?_, hcond.2⟩
  intro hn
  rw [hn] at hcond
  simp at hcond

/-- Witness for C5: the surviving row of a concrete mixed table has a
present positive price, through the theorem. -/
theorem food_filter_positive_price_witness :
    ∃ r ∈ process_food_data witFoodRows,
      r.pricePaid ≠ PVal.nan ∧ pgt r.pricePaid (PVal.num 0) = true := by
  have hmem : witKeptFoodRow ∈ process_food_data witFoodRows := by
    unfold process_food_data
    apply List.mem_filter.mpr
    refine ⟨by simp [witFoodRows, witKeptFoodRow], ?_⟩
    rw [Bool.and_eq_true]
    refine ⟨rfl, ?_⟩
    show pgt (PVal.num 30) (PVal.num 0) = true
    simp only [pgt_num_num, decide_eq_true_eq]
    norm_num
  exact ⟨_, hmem, food_filter_positive_price witFoodRows _ hmem⟩

/-- C10. A country row with `Population = 0` and finite `Migrants-net`
gets `Migrants_per_100k = ±∞` (the sign that of `Migrants-net`), or `NaN`
when `Migrants-net` is also `0`; the value is non-missing whenever
`Migrants-net ≠ 0`, and the enricher never fails on such a row. -/
theorem migrants_per_100k_zero_population (t : CountryTable) (r : CountryRow) (m : ℚ)
    (hp : r.population = PVal.num 0) (hm : r.migrantsNet = PVal.num m) :
    ((process_country_row t r).migrantsPer100k =
      if 0 < m then PVal.inf else if m < 0 then PVal.ninf else PVal.nan)
  ∧ (m ≠ 0 → (process_country_row t r).migrantsPer100k ≠ PVal.nan) := by
  have hproj : (process_country_row t r).migrantsPer100k =
      pmul (pdiv r.migrantsNet r.population) (PVal.num 100000) := rfl
  rcases lt_trichotomy m 0 with h | h | h
  · have hne : ¬ (0 < m) := by linarith
    have hval : (process_country_row t r).migrantsPer100k = PVal.ninf := by
      rw [hproj, hp, hm, pdiv_num_num, if_pos rfl, if_neg hne, if_pos h,
        pmul_ninf_num, if_pos (by norm_num)]
    constructor
    · rw [hval, if_neg hne, if_pos h]
    · intro _
      rw [hval]
      exact fun hc => PVal.noConfusion hc
  · subst h
    have hval : (process_country_row t r).migrantsPer100k = PVal.nan := by
      rw [hproj, hp, hm, pdiv_num_num, if_pos rfl, if_neg (lt_irrefl 0),
        if_neg (lt_irrefl 0), pmul_nan_left]
    constructor
    · rw [hval, if_neg (lt_irrefl 0), if_neg (lt_irrefl 0)]
    · intro hne
      exact absurd rfl hne
  · have hval : (process_country_row t r).migrantsPer100k = PVal.inf := by
      rw [hproj, hp, hm, pdiv_num_num, if_pos rfl, if_pos h,
        pmul_inf_num, if_pos (by norm_num)]
    constructor
    · rw [hval, if_pos h]
    · intro _
      rw [hval]
      exact fun hc => PVal.noConfusion hc

/-- Witness for C10: a concrete zero-population row with positive net
migration yields `+∞`, through the theorem. -/
theorem migrants_per_100k_zero_population_witness :
    (process_country_row witCountryTable witZeroPopRow).migrantsPer100k = PVal.inf := by
  have h := migrants_per_100k_zero_population witCountryTable witZeroPopRow 5 rfl rfl
  rw [h.1, if_pos (by norm_num)]

/-- C2. Every row of the Cross-Table Joiner's output carries the
composite score
`Fert-Rate * 0.3 + (Density / 1000) * 0.2 + abs(avg_food_inflation) * 0.5`,
where `0.3`, `0.2`, `0.5` are the rationals `3/10`, `2/10`, `5/10`. -/
theorem merged_poverty_risk_score (co : List CountryOut) (fo : List FoodRow) (m : MergedRow)
    (hm : m ∈ cross_table_join co fo) :
    m.povertyRiskScore =
      padd (padd (pmul m.fertRate (PVal.num (3/10)))
          (pmul (pdiv m.density (PVal.num 1000)) (PVal.num (2/10))))
        (pmul (pabs m.avgFoodInflation) (PVal.num (5/10))) := by
  unfold cross_table_join at hm
  simp only [List.mem_flatMap, List.mem_map, List.mem_filter] at hm
  obtain ⟨c, hc, t, ht, rfl⟩ := hm
  rfl

/-- Witness for C2: the single merged row of a concrete join satisfies the
score formula, through the theorem. -/
theorem merged_poverty_risk_score_witness :
    ∃ m ∈ cross_table_join witJoinCountry witJoinFood,
      m.povertyRiskScore =
        padd (padd (pmul m.fertRate (PVal.num (3/10)))
            (pmul (pdiv m.density (PVal.num 1000)) (PVal.num (2/10))))
          (pmul (pabs m.avgFoodInflation) (PVal.num (5/10))) := by
  have hjoin : cross_table_join witJoinCountry witJoinFood =
      [mkMergedRow witJoinCountryRow witJoinTrend] := rfl
  have hmem : mkMergedRow witJoinCountryRow witJoinTrend ∈
      cross_table_join witJoinCountry witJoinFood := by
    rw [hjoin]
    exact List.mem_singleton.mpr rfl
  exact ⟨_, hmem, merged_poverty_risk_score _ _ _ hmem⟩

/-- Counterexample for C7: in a table without a `Net_Change_perc` column
but with a `Yearly-Change` column, a row with a missing `Yearly-Change`
value gets a missing `Net_Change_perc`, not `0` as claimed. -/
theorem net_change_perc_counterexample :
    cx7NanRow ∈ cx7Table.rows
  ∧ cx7Table.hasNetChangePerc = false
  ∧ cx7NanRow.yearlyChange = PVal.nan
  ∧ (process_country_row cx7Table cx7NanRow).netChangePerc = PVal.nan
  ∧ (process_country_row cx7Table cx7NanRow).netChangePerc ≠ PVal.num 0 := by
  have h : (process_country_row cx7Table cx7NanRow).netChangePerc =
      pmul PVal.nan (PVal.num 100) := rfl
  refine ⟨by simp [cx7Table], rfl, rfl, ?_, ?_⟩
  · rw [h, pmul_nan_left]
  · rw [h, pmul_nan_left]
    exact fun hc => PVal.noConfusion hc

/-- C7 (amended). In the Country Enricher, when the `Net_Change_perc`
column is absent: if the `Yearly-Change` column exists, every row's
`Net_Change_perc = Yearly-Change * 100` with a missing `Yearly-Change`
propagating to a missing result; the default `0` applies only when the
`Yearly-Change` column itself is absent, and then every row gets `0`. -/
theorem net_change_perc_spec (t : CountryTable) (r : CountryRow)
    (hn : t.hasNetChangePerc = false) :
    (t.hasYearlyChange = true →
      (process_country_row t r).netChangePerc = pmul r.yearlyChange (PVal.num 100)
      ∧ (r.yearlyChange = PVal.nan → (process_country_row t r).netChangePerc = PVal.nan)
      ∧ (∀ q, r.yearlyChange = PVal.num q →
          (process_country_row t r).netChangePerc = PVal.num (q * 100)))
  ∧ (t.hasYearlyChange = false → (process_country_row t r).netChangePerc = PVal.num 0) := by
  have hproj : (process_country_row t r).netChangePerc =
      if t.hasNetChangePerc then r.netChangePerc
      else if t.hasYearlyChange then pmul r.yearlyChange (PVal.num 100)
      else PVal.num 0 := rfl
  constructor
  · intro hy
    refine ⟨by simp [hproj, hn, hy], ?_, ?_⟩
    · intro hnan
      simp [hproj, hn, hy, hnan]
    · intro q hq
      simp [hproj, hn, hy, hq]
  · intro hy
    simp [hproj, hn, hy]

/-- Witness for C7 (amended): a concrete row with `Yearly-Change = 2`
gets `Net_Change_perc = 200`, through the theorem. -/
theorem net_change_perc_spec_witness :
    (process_country_row cx7Table cx7NumRow).netChangePerc = PVal.num 200 := by
  have h := ((net_change_perc_spec cx7Table cx7NumRow rfl).1 rfl).2.2 2 rfl
  rw [h]
  norm_num

/-- Counterexample for C8: with yearly mean prices 2 then 4 for one
commodity, the aggregated `price_change` is the difference `4 - 2 = 2`,
not the claimed ratio `4/2 - 1 = 1`. -/
theorem price_change_counterexample :
    price_change cx8Food "Rice" = PVal.num 2
  ∧ PVal.num 2 ≠ PVal.num ((4:ℚ)/2 - 1) := by
  have hmeans : commodityYearlyMeans cx8Food "Rice" =
      [pmean [PVal.num 2], pmean [PVal.num 4]] := rfl
  have h2 : pmean [PVal.num 2] = PVal.num 2 := by
    simp [pmean, pdiv_num_num]
  have h4 : pmean [PVal.num 4] = PVal.num 4 := by
    simp [pmean, pdiv_num_num]
  constructor
  · unfold price_change
    rw [hmeans, h2, h4]
    unfold firstLastDelta
    rw [if_pos (by norm_num)]
    simp [List.getLastD, List.headD]
    norm_num
  · intro hc
    have h := PVal.num.inj hc
    norm_num at h

/-- C8 (amended). The per-commodity first-vs-last delta equals
`last - first` (not `last/first - 1`) when the commodity's yearly series
has at least 2 points, and the sentinel `0` when it has fewer. -/
theorem price_change_spec (rows : List FoodRow) (c : String) :
    (1 < (commodityYearlyMeans rows c).length →
      price_change rows c =
        psub ((commodityYearlyMeans rows c).getLastD PVal.nan)
          ((commodityYearlyMeans rows c).headD PVal.nan))
  ∧ ((commodityYearlyMeans rows c).length ≤ 1 → price_change rows c = PVal.num 0) := by
  unfold price_change firstLastDelta
  constructor
  · intro h
    rw [if_pos h]
  · intro h
    rw [if_neg (by omega)]

/-- Witness for C8 (amended): the two-point concrete series takes the
`last - first` branch, through the theorem. -/
theorem price_change_spec_witness :
    price_change cx8Food "Rice" =
      psub ((commodityYearlyMeans cx8Food "Rice").getLastD PVal.nan)
        ((commodityYearlyMeans cx8Food "Rice").headD PVal.nan) := by
  apply (price_change_spec cx8Food "Rice").1
  rw [show commodityYearlyMeans cx8Food "Rice" =
    [pmean [PVal.num 2], pmean [PVal.num 4]] from rfl]
  norm_num

/-- The scalar cleaner only produces missing or finite values, never an
infinity. -/
lemma clean_percent_col_finOrNan (s : String) : finOrNan (clean_percent_col s) := by
  unfold finOrNan clean_percent_col to_numeric
  rcases hp : parseSigned (trimChars (stripDecoration s).data) with _ | q
  · left; rfl
  · right; exact ⟨q, rfl⟩

/-- Counterexample for C3: a row with a missing `Population` but a
parseable `Urban-Pop-Perc` still gets missing `Urban_Pop` and
`Rural_Pop`, refuting the claimed "both missing iff `Urban-Pop-Perc`
unparseable". -/
theorem region_urban_rural_counterexample :
    clean_percent_col cx3Row.urbanPopPerc = PVal.num ((50:ℕ) : ℚ)
  ∧ clean_percent_col cx3Row.urbanPopPerc ≠ PVal.nan
  ∧ cx3Row.population = PVal.nan
  ∧ (process_region_row cx3Row).urbanPop = PVal.nan
  ∧ (process_region_row cx3Row).ruralPop = PVal.nan := by
  have hu : (process_region_row cx3Row).urbanPop =
      pdiv (pmul PVal.nan (clean_percent_col "50")) (PVal.num 100) := rfl
  have hu2 : (process_region_row cx3Row).urbanPop = PVal.nan := by
    rw [hu, pmul_nan_left, pdiv_nan_left]
  have hr : (process_region_row cx3Row).ruralPop =
      psub PVal.nan ((process_region_row cx3Row).urbanPop) := rfl
  refine ⟨rfl, ?_, rfl, hu2, ?_⟩
  · intro hc
    exact PVal.noConfusion hc
  · rw [hr, hu2, psub_nan_left]

/-- C3 (amended). For every region row whose raw `Population` is missing
or finite: `Urban_Pop + Rural_Pop = Population` exactly whenever both
`Population` and the cleaned `Urban-Pop-Perc` are present, and the two
derived fields are both missing iff `Urban-Pop-Perc` failed to parse or
`Population` is itself missing. -/
theorem region_urban_rural_spec (r : RegionRow) (h : finOrNan r.population) :
    ((process_region_row r).urbanPop = PVal.nan ∧ (process_region_row r).ruralPop = PVal.nan
      ↔ (clean_percent_col r.urbanPopPerc = PVal.nan ∨ r.population = PVal.nan))
  ∧ (∀ p q, r.population = PVal.num p → clean_percent_col r.urbanPopPerc = PVal.num q →
      padd (process_region_row r).urbanPop (process_region_row r).ruralPop = r.population) := by
  have hu : (process_region_row r).urbanPop =
      pdiv (pmul r.population (clean_percent_col r.urbanPopPerc)) (PVal.num 100) := rfl
  have hr2 : (process_region_row r).ruralPop =
      psub r.population ((process_region_row r).urbanPop) := rfl
  rcases h with hpop | ⟨p, hpop⟩
  · have hu2 : (process_region_row r).urbanPop = PVal.nan := by
      rw [hu, hpop, pmul_nan_left, pdiv_nan_left]
    have hr3 : (process_region_row r).ruralPop = PVal.nan := by
      rw [hr2, hu2, hpop, psub_nan_left]
    constructor
    · constructor
      · intro _
        right
        exact hpop
      · intro _
        exact ⟨hu2, hr3⟩
    · intro p q hp hq
      rw [hpop] at hp
      exact absurd hp (by simp)
  · rcases clean_percent_col_finOrNan r.urbanPopPerc with hperc | ⟨q, hperc⟩
    · have hu2 : (process_region_row r).urbanPop = PVal.nan := by
        rw [hu, hpop, hperc, pmul_nan_right, pdiv_nan_left]
      have hr3 : (process_region_row r).ruralPop = PVal.nan := by
        rw [hr2, hu2, hpop, psub_nan_right]
      constructor
      · constructor
        · intro _
          left
          exact hperc
        · intro _
          exact ⟨hu2, hr3⟩
      · intro p2 q hp hq
        rw [hperc] at hq
        exact absurd hq (by simp)
    · have h100 : (100:ℚ) ≠ 0 := by norm_num
      have hu2 : (process_region_row r).urbanPop = PVal.num (p * q / 100) := by
        rw [hu, hpop, hperc, pmul_num_num, pdiv_num_num_ne _ _ h100]
      have hr3 : (process_region_row r).ruralPop = PVal.num (p - p * q / 100) := by
        rw [hr2, hu2, hpop, psub_num_num]
      constructor
      · constructor
        · rintro ⟨hun, -⟩
          rw [hu2] at hun
          exact absurd hun (by simp)
        · rintro (hc | hc)
          · rw [hperc] at hc
            exact absurd hc (by simp)
          · rw [hpop] at hc
            exact absurd hc (by simp)
      · intro p2 q2 hp hq
        rw [hu2, hr3, padd_num_num, hpop]
        congr 1
        ring

/-- Witness for C3 (amended): a concrete row with `Population = 1200` and
`Urban-Pop-Perc = "40%"` satisfies `Urban_Pop + Rural_Pop = Population`,
through the theorem. -/
theorem region_urban_rural_spec_witness :
    padd (process_region_row wit3Row).urbanPop (process_region_row wit3Row).ruralPop
      = wit3Row.population :=
  (region_urban_rural_spec wit3Row (Or.inr ⟨1200, rfl⟩)).2 1200 ((40:ℕ) : ℚ) rfl rfl

/-- Unfolding of `dropSign` on a nonempty list. -/
lemma dropSign_cons (c : Char) (rest : List Char) :
    dropSign (c :: rest) = if c = '-' ∨ c = '+' then rest else c :: rest := rfl

/-- Unfolding of `parseSigned` on a nonempty list. -/
lemma parseSigned_cons (c : Char) (rest : List Char) :
    parseSigned (c :: rest) =
      if c = '-' then (parseUnsigned rest).map (fun q => -q)
      else if c = '+' then parseUnsigned rest
      else parseUnsigned (c :: rest) := rfl

/-- A successful unsigned parse means the input has the decimal-literal
shape: at most one dot, only digits and dots, at least one digit. -/
lemma parseUnsigned_shape (l : List Char) (q : ℚ) (h : parseUnsigned l = some q) :
    (decide (l.count '.' ≤ 1) &&
      l.all (fun c => c.isDigit || decide (c = '.')) &&
      l.any Char.isDigit) = true := by
  have hsplit : l.takeWhile Char.isDigit ++ l.dropWhile Char.isDigit = l :=
    List.takeWhile_append_dropWhile Char.isDigit l
  have hds : ∀ c ∈ l.takeWhile Char.isDigit, c.isDigit = true :=
    fun c hc => List.mem_takeWhile_imp hc
  rw [Bool.and_eq_true, Bool.and_eq_true]
  unfold parseUnsigned at h
  split at h
  · next hrest =>
    split at h
    · exact absurd h (by simp)
    · next he =>
      have hl : l = l.takeWhile Char.isDigit := by
        conv_lhs => rw [← hsplit]
        rw [hrest, List.append_nil]
      have hdig : ∀ c ∈ l, c.isDigit = true := by
        intro c hc
        rw [hl] at hc
        exact hds c hc
      refine ⟨⟨?_, ?_⟩, ?_⟩
      · rw [decide_eq_true_eq]
        have hdot : ('.' : Char) ∉ l := fun hmem => absurd (hdig _ hmem) (by decide)
        rw [List.count_eq_zero.mpr hdot]
        omega
      · rw [List.all_eq_true]
        intro c hc
        rw [Bool.or_eq_true]
        exact Or.inl (hdig c hc)
      · rw [List.any_eq_true]
        have hne : l ≠ [] := by
          intro hnil
          apply he
          rw [hl, hnil]
          rfl
        obtain ⟨c, hc⟩ := List.exists_mem_of_ne_nil l hne
        exact ⟨c, hc, hdig c hc⟩
  · next c frac hrest =>
    split at h
    · next hcond =>
      obtain ⟨hc, hall, hne⟩ := hcond
      subst hc
      have hl : l = l.takeWhile Char.isDigit ++ '.' :: frac := by
        conv_lhs => rw [← hsplit]
        rw [hrest]
      have hfr : ∀ x ∈ frac, x.isDigit = true := by
        rw [List.all_eq_true] at hall
        exact hall
      refine ⟨⟨?_, ?_⟩, ?_⟩
      · rw [decide_eq_true_eq, hl, List.count_append]
        have h1 : (l.takeWhile Char.isDigit).count '.' = 0 :=
          List.count_eq_zero.mpr (fun hmem => absurd (hds _ hmem) (by decide))
        have h2 : frac.count '.' = 0 :=
          List.count_eq_zero.mpr (fun hmem => absurd (hfr _ hmem) (by decide))
        rw [h1, List.count_cons_self, h2]
      · rw [List.all_eq_true]
        intro x hx
        rw [hl, List.mem_append, List.mem_cons] at hx
        rw [Bool.or_eq_true]
        rcases hx with hx | hx | hx
        · exact Or.inl (hds x hx)
        · exact Or.inr (by rw [decide_eq_true_eq]; exact hx)
        · exact Or.inl (hfr x hx)
      · rw [List.any_eq_true]
        rcases hne with hne | hne
        · cases htk : l.takeWhile Char.isDigit with
          | nil =>
            rw [htk] at hne
            exact absurd hne (by simp)
          | cons d ds =>
            refine ⟨d, ?_, hds d (htk ▸ List.mem_cons_self d ds)⟩
            rw [hl, List.mem_append, htk]
            exact Or.inl (List.mem_cons_self d ds)
        · cases hfc : frac with
          | nil =>
            rw [hfc] at hne
            exact absurd hne (by simp)
          | cons d ds =>
            refine ⟨d, ?_, hfr d (hfc ▸ List.mem_cons_self d ds)⟩
            rw [hl, List.mem_append, List.mem_cons, hfc]
            exact Or.inr (Or.inr (List.mem_cons_self d ds))
    · exact absurd h (by simp)

/-- A successful signed parse means the input has the signed
decimal-literal grammar `numShape`. -/
lemma parseSigned_shape (l : List Char) (q : ℚ) (h : parseSigned l = some q) :
    numShape l = true := by
  cases l with
  | nil => exact absurd h (by simp [parseSigned])
  | cons c rest =>
    rw [parseSigned_cons] at h
    unfold numShape
    by_cases hminus : c = '-'
    · rw [if_pos hminus] at h
      obtain ⟨q0, hq0, -⟩ := Option.map_eq_some'.mp h
      rw [dropSign_cons, if_pos (Or.inl hminus)]
      exact parseUnsigned_shape rest q0 hq0
    · by_cases hplus : c = '+'
      · rw [if_neg hminus, if_pos hplus] at h
        rw [dropSign_cons, if_pos (Or.inr hplus)]
        exact parseUnsigned_shape rest q h
      · rw [if_neg hminus, if_neg hplus] at h
        rw [dropSign_cons, if_neg (by tauto)]
        exact parseUnsigned_shape (c :: rest) q h

/-- C6. A textual value whose content after stripping `%`/`,` decoration
(and surrounding whitespace) is not a decimal literal — including the
empty string — is cleaned to the missing marker: the cleaner is total and
never maps an unparseable input to zero. -/
theorem clean_unparseable_missing (s : String)
    (h : numShape (trimChars (stripDecoration s).data) = false) :
    clean_percent_col s = PVal.nan ∧ clean_percent_col s ≠ PVal.num 0 := by
  have hnone : parseSigned (trimChars (stripDecoration s).data) = none := by
    cases hp : parseSigned (trimChars (stripDecoration s).data) with
    | none => rfl
    | some q =>
      have hs := parseSigned_shape _ q hp
      rw [h] at hs
      exact absurd hs (by simp)
  have hc : clean_percent_col s = PVal.nan := by
    unfold clean_percent_col to_numeric
    rw [hnone]
  exact ⟨hc, by rw [hc]; exact fun hcon => PVal.noConfusion hcon⟩

/-- Witness for C6: the non-numeric value `"n/a"` has no literal shape and
is cleaned to missing, through the theorem. -/
theorem clean_unparseable_missing_witness :
    numShape (trimChars (stripDecoration "n/a").data) = false
  ∧ clean_percent_col "n/a" = PVal.nan :=
  ⟨by decide, (clean_unparseable_missing "n/a" (by decide)).1⟩

/-- A filter by one key value on a list whose keys are distinct keeps at
most one element. -/
lemma filter_key_length {α β : Type} [DecidableEq β] (f : α → β) (k : β) :
    ∀ (l : List α), (l.map f).Nodup → (l.filter (fun x => decide (f x = k))).length ≤ 1 := by
  intro l
  induction l with
  | nil => simp
  | cons a l ih =>
    intro hnd
    rw [List.map_cons, List.nodup_cons] at hnd
    obtain ⟨hnotmem, hnd2⟩ := hnd
    by_cases hk : f a = k
    · rw [List.filter_cons_of_pos (by simp [hk])]
      have hempty : l.filter (fun x => decide (f x = k)) = [] := by
        rw [List.filter_eq_nil_iff]
        intro x hx
        simp only [decide_eq_true_eq]
        intro hfx
        have : f a = f x := hk.trans hfx.symm
        exact hnotmem (this ▸ List.mem_map_of_mem f hx)
      rw [hempty]
      simp
    · rw [List.filter_cons_of_neg (by simp [hk])]
      exact ih hnd2

/-- The trend table has pairwise distinct country keys (it comes from a
group-by). -/
lemma trends_names_nodup (rows : List FoodRow) :
    ((food_trends rows).map TrendRow.countryName).Nodup := by
  unfold food_trends
  rw [List.map_map]
  have hcomp : (TrendRow.countryName ∘ fun g =>
      TrendRow.mk g (avgFoodInflation rows g)) = id := rfl
  rw [hcomp, List.map_id]
  exact List.nodup_dedup _

/-- The inner join emits at most one row per country row. -/
lemma join_length_le (co : List CountryOut) (fo : List FoodRow) :
    (cross_table_join co fo).length ≤ co.length := by
  unfold cross_table_join
  induction co with
  | nil => simp
  | cons c co ih =>
    rw [List.flatMap_cons, List.length_append, List.length_map, List.length_cons]
    have h1 : ((food_trends fo).filter
        (fun t => decide (t.countryName = normName c.country))).length ≤ 1 :=
      filter_key_length TrendRow.countryName (normName c.country) (food_trends fo)
        (trends_names_nodup fo)
    omega

/-- C9 (amended). The Cross-Table Joiner's output has at most as many rows
as the country table, and every output row's country comes from a country
row of the input and is a country with food data; the claimed bound by
the number of distinct food countries additionally needs the country
rows' normalised names to be distinct (see the counterexample). -/
theorem cross_table_join_bounds (co : List CountryOut) (fo : List FoodRow) :
    (cross_table_join co fo).length ≤ co.length
  ∧ ∀ m ∈ cross_table_join co fo,
      (∃ c ∈ co, m.country = normName c.country) ∧ m.country ∈ foodCountries fo := by
  refine ⟨join_length_le co fo, ?_⟩
  intro m hm
  unfold cross_table_join at hm
  simp only [List.mem_flatMap, List.mem_map, List.mem_filter, decide_eq_true_eq] at hm
  obtain ⟨c, hc, t, ⟨htr, hkey⟩, rfl⟩ := hm
  constructor
  · exact ⟨c, hc, rfl⟩
  · have hcountry : (mkMergedRow c t).country = t.countryName := hkey.symm
    rw [hcountry]
    unfold food_trends at htr
    obtain ⟨g, hg, rfl⟩ := List.mem_map.mp htr
    exact hg

/-- Witness for C9 (amended): the bounds instantiated at a concrete pair
of tables. -/
theorem cross_table_join_bounds_witness :
    (cross_table_join cx9Country cx9Food).length ≤ cx9Country.length
  ∧ ∀ m ∈ cross_table_join cx9Country cx9Food,
      (∃ c ∈ cx9Country, m.country = normName c.country) ∧ m.country ∈ foodCountries cx9Food :=
  cross_table_join_bounds cx9Country cx9Food

/-- Counterexample for C9: two country rows that normalise to the same
name both match the single food country, so the join has 2 rows while
`min(|Country|, |countries with food data|) = 1`. -/
theorem cross_table_join_counterexample :
    (cross_table_join cx9Country cx9Food).length = 2
  ∧ cx9Country.length = 2
  ∧ (foodCountries cx9Food).length = 1
  ∧ ¬((cross_table_join cx9Country cx9Food).length ≤
      min cx9Country.length (foodCountries cx9Food).length) := by
  have h1 : (cross_table_join cx9Country cx9Food).length = 2 := rfl
  have h2 : cx9Country.length = 2 := rfl
  have h3 : (foodCountries cx9Food).length = 1 := rfl
  refine ⟨h1, h2, h3, ?_⟩
  rw [h1, h2, h3]
  omega

/-- Finite entries of the empty column. -/
@[simp] lemma finParts_nil : finParts [] = [] := rfl

/-- A missing value contributes no finite entry. -/
@[simp] lemma finParts_cons_nan (l : List PVal) : finParts (PVal.nan :: l) = finParts l := rfl

/-- A finite value contributes its rational. -/
@[simp] lemma finParts_cons_num (q : ℚ) (l : List PVal) :
    finParts (PVal.num q :: l) = q :: finParts l := rfl

/-- On a column without infinities, dropping missing values is the same as
keeping the finite entries. -/
lemma filter_notna_eq (l : List PVal) (h : ∀ v ∈ l, finOrNan v) :
    l.filter notna = (finParts l).map PVal.num := by
  induction l with
  | nil => rfl
  | cons v l ih =>
    have hv := h v (List.mem_cons_self v l)
    have hrest : ∀ x ∈ l, finOrNan x := fun x hx => h x (List.mem_cons_of_mem v hx)
    rcases hv with hv | ⟨q, hv⟩ <;> subst hv
    · rw [List.filter_cons_of_neg (by simp), finParts_cons_nan]
      exact ih hrest
    · rw [List.filter_cons_of_pos (by simp), finParts_cons_num, List.map_cons]
      rw [ih hrest]

/-- Folding IEEE addition over finite values is the rational sum. -/
lemma foldl_padd_num (l : List ℚ) (a : ℚ) :
    (l.map PVal.num).foldl padd (PVal.num a) = PVal.num (a + l.sum) := by
  induction l generalizing a with
  | nil => simp
  | cons q l ih =>
    rw [List.map_cons, List.foldl_cons, padd_num_num, ih]
    congr 1
    rw [List.sum_cons]
    ring

/-- Pandas sum of a column without infinities is the rational sum of its
finite entries. -/
lemma psum_eq_sum (l : List PVal) (h : ∀ v ∈ l, finOrNan v) :
    psum l = PVal.num (finParts l).sum := by
  unfold psum
  rw [filter_notna_eq l h, foldl_padd_num]
  congr 1
  ring

/-- Distributing a common `/ s * 100` over a rational sum. -/
lemma sum_map_div_mul (l : List ℚ) (s : ℚ) :
    (l.map (fun q => q / s * 100)).sum = l.sum / s * 100 := by
  induction l with
  | nil => simp
  | cons q l ih =>
    rw [List.map_cons, List.sum_cons, List.sum_cons, ih]
    ring

/-- Finite entries of a share column `v / s * 100` are the shares of the
finite entries. -/
lemma finParts_share (vals : List PVal) (s : ℚ) (hs : s ≠ 0)
    (h : ∀ v ∈ vals, finOrNan v) :
    finParts (vals.map (fun v => pmul (pdiv v (PVal.num s)) (PVal.num 100)))
      = (finParts vals).map (fun q => q / s * 100) := by
  induction vals with
  | nil => rfl
  | cons v l ih =>
    have hv := h v (List.mem_cons_self v l)
    have hrest : ∀ x ∈ l, finOrNan x := fun x hx => h x (List.mem_cons_of_mem v hx)
    rcases hv with hv | ⟨q, hv⟩ <;> subst hv
    · rw [List.map_cons, pdiv_nan_left, pmul_nan_left, finParts_cons_nan,
        finParts_cons_nan, ih hrest]
    · rw [List.map_cons, pdiv_num_num_ne _ _ hs, pmul_num_num, finParts_cons_num,
        finParts_cons_num, List.map_cons, ih hrest]

/-- Pandas sum of a share column `v / s * 100` over a column without
infinities. -/
lemma psum_share_col (vals : List PVal) (s : ℚ) (hs : s ≠ 0)
    (h : ∀ v ∈ vals, finOrNan v) :
    psum (vals.map (fun v => pmul (pdiv v (PVal.num s)) (PVal.num 100)))
      = PVal.num ((finParts vals).sum / s * 100) := by
  have hfin : ∀ v ∈ vals.map (fun v => pmul (pdiv v (PVal.num s)) (PVal.num 100)), finOrNan v := by
    intro v hv
    obtain ⟨x, hx, rfl⟩ := List.mem_map.mp hv
    rcases h x hx with h1 | ⟨q, h1⟩ <;> subst h1
    · left
      rw [pdiv_nan_left, pmul_nan_left]
    · right
      exact ⟨q / s * 100, by rw [pdiv_num_num_ne _ _ hs, pmul_num_num]⟩
  rw [psum_eq_sum _ hfin, finParts_share vals s hs h, sum_map_div_mul]

/-- C4 (amended). For an undernourishment table whose two relevant columns
hold only finite or missing values and whose column totals are nonzero,
pandas-summing the `Global_Burden_Share` column gives exactly 100 and
likewise for `Population_Share` (rows with missing inputs contribute a
skipped missing share). -/
theorem undernourishment_shares_sum (rows : List UndRow)
    (hu : ∀ r ∈ rows, finOrNan r.undernourished)
    (hp : ∀ r ∈ rows, finOrNan r.population)
    (hsu : (finParts (rows.map (fun r => r.undernourished))).sum ≠ 0)
    (hsp : (finParts (rows.map (fun r => r.population))).sum ≠ 0) :
    psum (((process_undernourishment_data rows).1).map (fun o => o.globalBurdenShare))
      = PVal.num 100
  ∧ psum (((process_undernourishment_data rows).1).map (fun o => o.populationShare))
      = PVal.num 100 := by
  have hu2 : ∀ v ∈ rows.map (fun r => r.undernourished), finOrNan v := by
    intro v hv
    obtain ⟨r, hr, rfl⟩ := List.mem_map.mp hv
    exact hu r hr
  have hp2 : ∀ v ∈ rows.map (fun r => r.population), finOrNan v := by
    intro v hv
    obtain ⟨r, hr, rfl⟩ := List.mem_map.mp hv
    exact hp r hr
  have htu : totalUndernourished rows =
      PVal.num (finParts (rows.map (fun r => r.undernourished))).sum :=
    psum_eq_sum _ hu2
  have htp : totalPopulation rows =
      PVal.num (finParts (rows.map (fun r => r.population))).sum :=
    psum_eq_sum _ hp2
  have hcolu : ((process_undernourishment_data rows).1).map (fun o => o.globalBurdenShare)
      = (rows.map (fun r => r.undernourished)).map
          (fun v => pmul (pdiv v (totalUndernourished rows)) (PVal.num 100)) := by
    unfold process_undernourishment_data
    rw [List.map_map, List.map_map]
    rfl
  have hcolp : ((process_undernourishment_data rows).1).map (fun o => o.populationShare)
      = (rows.map (fun r => r.population)).map
          (fun v => pmul (pdiv v (totalPopulation rows)) (PVal.num 100)) := by
    unfold process_undernourishment_data
    rw [List.map_map, List.map_map]
    rfl
  constructor
  · rw [hcolu, htu, psum_share_col _ _ hsu hu2, div_self hsu, one_mul]
  · rw [hcolp, htp, psum_share_col _ _ hsp hp2, div_self hsp, one_mul]

/-- Witness for C4 (amended): a concrete three-row table (one row all
missing) has share columns that pandas-sum to exactly 100, through the
theorem. -/
theorem undernourishment_shares_sum_witness :
    psum (((process_undernourishment_data wit4Rows).1).map (fun o => o.globalBurdenShare))
      = PVal.num 100
  ∧ psum (((process_undernourishment_data wit4Rows).1).map (fun o => o.populationShare))
      = PVal.num 100 := by
  apply undernourishment_shares_sum
  · intro r hr
    simp only [wit4Rows, List.mem_cons, List.not_mem_nil, or_false] at hr
    rcases hr with rfl | rfl | rfl
    · exact Or.inr ⟨10, rfl⟩
    · exact Or.inr ⟨30, rfl⟩
    · exact Or.inl rfl
  · intro r hr
    simp only [wit4Rows, List.mem_cons, List.not_mem_nil, or_false] at hr
    rcases hr with rfl | rfl | rfl
    · exact Or.inr ⟨100, rfl⟩
    · exact Or.inr ⟨300, rfl⟩
    · exact Or.inl rfl
  · rw [show finParts (wit4Rows.map (fun r => r.undernourished)) = [10, 30] from rfl]
    norm_num
  · rw [show finParts (wit4Rows.map (fun r => r.population)) = [100, 300] from rfl]
    norm_num

/-- Counterexample for C4: a one-row table whose `Undernourished-People`
and `Population` are present but zero satisfies the claim's hypothesis,
yet its share columns pandas-sum to 0, not 100. -/
theorem undernourishment_shares_counterexample :
    (∃ r ∈ cx4Rows, r.undernourished ≠ PVal.nan ∧ r.population ≠ PVal.nan)
  ∧ psum (((process_undernourishment_data cx4Rows).1).map (fun o => o.globalBurdenShare))
      = PVal.num 0
  ∧ psum (((process_undernourishment_data cx4Rows).1).map (fun o => o.populationShare))
      = PVal.num 0
  ∧ PVal.num (0:ℚ) ≠ PVal.num 100 := by
  have htu : totalUndernourished cx4Rows = PVal.num (0 + 0) := rfl
  have hshare : pdiv (PVal.num 0) (PVal.num (0 + 0)) = PVal.nan := by
    rw [pdiv_num_num, if_pos (by norm_num), if_neg (by norm_num), if_neg (by norm_num)]
  refine ⟨⟨cx4Row, by simp [cx4Rows], fun hc => PVal.noConfusion hc,
    fun hc => PVal.noConfusion hc⟩, ?_, ?_, ?_⟩
  · have hcol : ((process_undernourishment_data cx4Rows).1).map (fun o => o.globalBurdenShare)
        = [pmul (pdiv (PVal.num 0) (PVal.num (0 + 0))) (PVal.num 100)] := rfl
    rw [hcol, hshare, pmul_nan_left]
    rfl
  · have hcol : ((process_undernourishment_data cx4Rows).1).map (fun o => o.populationShare)
        = [pmul (pdiv (PVal.num 0) (PVal.num (0 + 0))) (PVal.num 100)] := rfl
    rw [hcol, hshare, pmul_nan_left]
    rfl
  · intro hc
    have h := PVal.num.inj hc
    norm_num at h
